import Mathlib

/-!
Verification development for the `mc-odata-nestjs` OData query builder
(`src/lib/odata-builder.ts`).  The TypeScript source is shallowly embedded:
JavaScript string primitives (`trim`, `split`, `toUpperCase`, `parseInt`,
`Number`, template literals) are modelled as executable Lean functions over
`List Char`, the three regex families used by `parseAndApplyFilter` are
modelled by a faithful leftmost-match backtracking engine, and the
query-builder calls (`andWhere`, `addOrderBy`, `leftJoinAndSelect`, `take`,
`skip`) are recorded as values.
-/

/-! ## JavaScript string primitives -/

/-- The whitespace characters stripped by JavaScript `trim` and by the
`Number`/`parseInt` conversions (ASCII whitespace plus NBSP and BOM;
rarer Unicode space characters are not modelled). -/
def jsWhitespace (c : Char) : Bool :=
  c == ' ' || c == '\t' || c == '\n' || c == '\r' || c == '\x0b' ||
  c == '\x0c' || c == '\u00A0' || c == '\uFEFF'

/-- JavaScript `String.prototype.trim` on a character list. -/
def jsTrimL (cs : List Char) : List Char :=
  ((cs.dropWhile jsWhitespace).reverse.dropWhile jsWhitespace).reverse

/-- JavaScript `String.prototype.trim`. -/
def jsTrim (s : String) : String := ⟨jsTrimL s.data⟩

/-- Fuel-driven splitter: JavaScript `split` with the non-empty separator
`s1 :: srest`.  The fuel is an upper bound on the remaining length, so the
default branch is unreachable. -/
def jsSplitGo (s1 : Char) (srest : List Char) :
    ℕ → List Char → List Char → List (List Char)
  | 0, rem, cur => [cur.reverse ++ rem]
  | fuel + 1, rem, cur =>
    match rem with
    | [] => [cur.reverse]
    | c :: rest =>
      if (s1 :: srest).isPrefixOf (c :: rest) then
        cur.reverse :: jsSplitGo s1 srest fuel (rest.drop srest.length) []
      else
        jsSplitGo s1 srest fuel rest (c :: cur)

/-- JavaScript `String.prototype.split` with a non-empty string separator
(the only form the source uses). -/
def jsSplit (sep : String) (s : String) : List String :=
  match sep.data with
  | [] => [s]
  | s1 :: srest => (jsSplitGo s1 srest (s.data.length + 1) s.data []).map (⟨·⟩)

/-- JavaScript `String.prototype.toUpperCase` (ASCII behaviour). -/
def jsToUpper (s : String) : String := ⟨s.data.map Char.toUpper⟩

/-- JavaScript `s.startsWith(c)` for a single-character argument. -/
def headIs (s : String) (c : Char) : Bool := s.data.head? == some c

/-- JavaScript `s.endsWith(c)` for a single-character argument. -/
def lastIs (s : String) (c : Char) : Bool := s.data.getLast? == some c

/-- JavaScript `s.slice(1, -1)`. -/
def jsSlice1m1 (s : String) : String :=
  ⟨(s.data.drop 1).take (s.data.length - 2)⟩

/-- JavaScript `s.includes(c)` for a single character. -/
def strContainsChar (s : String) (c : Char) : Bool := s.data.contains c

/-- JavaScript `s.startsWith(p)`. -/
def strStartsWith (s p : String) : Bool := p.data.isPrefixOf s.data

/-! ## Decimal printing of numbers (JavaScript template-literal coercion) -/

/-- Decimal digit characters. -/
def digitChar (m : ℕ) : Char :=
  match m with
  | 0 => '0' | 1 => '1' | 2 => '2' | 3 => '3' | 4 => '4'
  | 5 => '5' | 6 => '6' | 7 => '7' | 8 => '8' | _ => '9'

/-- Fuel-driven decimal printer for naturals (the fuel bounds the number of
division steps; `n + 1` is always sufficient). -/
def natToDecAux : ℕ → ℕ → List Char
  | 0, _ => []
  | fuel + 1, n =>
    if n < 10 then [digitChar n]
    else natToDecAux fuel (n / 10) ++ [digitChar (n % 10)]

/-- Decimal representation of a natural number, as produced by JavaScript
string coercion of an integral number. -/
def natToDecL (n : ℕ) : List Char := natToDecAux (n + 1) n

/-- Decimal representation of a natural number as a string. -/
def natToDec (n : ℕ) : String := ⟨natToDecL n⟩

/-- Numeric value of a list of decimal digit characters. -/
def natOfDigits (ds : List Char) : ℕ :=
  ds.foldl (fun a c => a * 10 + (c.toNat - 48)) 0

/-- Decimal representation of an integer. -/
def intToDec (n : ℤ) : String :=
  (if n < 0 then "-" else "") ++ natToDec n.natAbs

/-! ## JavaScript numbers -/

/-- A JavaScript number as produced by `Number(string)` on a non-`NaN`
input: either an exact rational written as a fraction in lowest terms with
positive denominator, or one of the two infinities.  (Double-precision
rounding is not modelled; the literals exercised here are exact.) -/
inductive JsNum where
  | fin (num : ℤ) (den : ℕ)
  | posInf
  | negInf
deriving DecidableEq

/-- Normalising constructor: reduces the fraction to lowest terms so that
equal values have equal representations. -/
def JsNum.mkFin (n : ℤ) (d : ℕ) : JsNum :=
  let g := Nat.gcd n.natAbs d
  JsNum.fin (n / (g : ℤ)) (d / g)

/-- Value of a single character as a digit in bases up to 36 (99 when the
character is no digit at all). -/
def charDigitVal (c : Char) : ℕ :=
  if c.isDigit then c.toNat - 48
  else if 'a' ≤ c ∧ c ≤ 'z' then c.toNat - 87
  else if 'A' ≤ c ∧ c ≤ 'Z' then c.toNat - 55
  else 99

/-- Numeric value of digits in base `b`. -/
def radixVal (b : ℕ) (ds : List Char) : ℕ :=
  ds.foldl (fun a c => a * b + charDigitVal c) 0

/-- JavaScript non-decimal integer literal body (after `0x`/`0o`/`0b`). -/
def parseRadix (b : ℕ) (ds : List Char) : Option JsNum :=
  if ds.isEmpty then none
  else if ds.all (fun c => charDigitVal c < b) then
    some (JsNum.mkFin (radixVal b ds) 1)
  else none

/-- JavaScript decimal numeric literal with optional sign, fraction and
exponent, matched against the whole character list. -/
def parseDecimalL (cs : List Char) : Option JsNum :=
  let (sgn, cs1) : ℤ × List Char :=
    match cs with
    | [] => (1, [])
    | c :: r => if c == '+' then (1, r) else if c == '-' then (-1, r) else (1, c :: r)
  let ip := cs1.takeWhile Char.isDigit
  let csA := cs1.dropWhile Char.isDigit
  let (fp, csB) : List Char × List Char :=
    match csA with
    | [] => ([], [])
    | c :: r =>
      if c == '.' then (r.takeWhile Char.isDigit, r.dropWhile Char.isDigit)
      else ([], c :: r)
  if ip.isEmpty && fp.isEmpty then none
  else
    let mant : ℤ := sgn * ((natOfDigits ip) * 10 ^ fp.length + natOfDigits fp)
    match csB with
    | [] => some (JsNum.mkFin mant (10 ^ fp.length))
    | e :: r =>
      if e == 'e' || e == 'E' then
        let (eneg, r1) : Bool × List Char :=
          match r with
          | [] => (false, [])
          | c :: rr => if c == '+' then (false, rr) else if c == '-' then (true, rr) else (false, c :: rr)
        let ed := r1.takeWhile Char.isDigit
        let r2 := r1.dropWhile Char.isDigit
        if ed.isEmpty || !r2.isEmpty then none
        else if eneg then some (JsNum.mkFin mant (10 ^ (fp.length + natOfDigits ed)))
        else some (JsNum.mkFin (mant * 10 ^ natOfDigits ed) (10 ^ fp.length))
      else none

/-- JavaScript `Number(string)`: `none` models `NaN`. -/
def jsNumber (s : String) : Option JsNum :=
  let t := jsTrimL s.data
  if t.isEmpty then some (JsNum.fin 0 1)
  else if t = "Infinity".data ∨ t = "+Infinity".data then some JsNum.posInf
  else if t = "-Infinity".data then some JsNum.negInf
  else
    match t with
    | c0 :: c1 :: rest =>
      if c0 == '0' && (c1 == 'x' || c1 == 'X') then parseRadix 16 rest
      else if c0 == '0' && (c1 == 'o' || c1 == 'O') then parseRadix 8 rest
      else if c0 == '0' && (c1 == 'b' || c1 == 'B') then parseRadix 2 rest
      else parseDecimalL t
    | _ => parseDecimalL t

/-- Zero-padded decimal digits (fraction part of a decimal expansion). -/
def padDigits (k m : ℕ) : List Char :=
  List.replicate (k - (natToDecL m).length) '0' ++ natToDecL m

/-- JavaScript string coercion of a number.  For a non-integral value the
shortest exact decimal expansion is produced, which agrees with JavaScript
for the decimal literals this library binds.  (JavaScript's switch to
exponent notation for very large or very small magnitudes is not
modelled.) -/
def jsNumToString : JsNum → String
  | .posInf => "Infinity"
  | .negInf => "-Infinity"
  | .fin n d =>
    if d = 1 then intToDec n
    else
      match (List.range (d + 1)).find? (fun k => 10 ^ k % d == 0) with
      | some k =>
        let scaled := n.natAbs * (10 ^ k / d)
        (if n < 0 then "-" else "") ++ natToDec (scaled / 10 ^ k) ++ "." ++
          (⟨padDigits k (scaled % 10 ^ k)⟩ : String)
      | none => intToDec n ++ "/" ++ natToDec d

/-! ## Typed values (`parseValue`) -/

/-- The typed scalar produced by `parseValue`: a JavaScript string, number,
boolean or `null`. -/
inductive TypedValue where
  | str (s : String)
  | num (n : JsNum)
  | bool (b : Bool)
  | null
deriving DecidableEq

/-- `ODataBuilder.parseValue`: strips one level of matching double or
single quotes, recognises `true`/`false`/`null`, then falls back to
`Number` coercion (`!isNaN(Number(value))`) and finally to the verbatim
string. -/
def parseValue (value : String) : TypedValue :=
  if headIs value '"' && lastIs value '"' then .str (jsSlice1m1 value)
  else if headIs value '\'' && lastIs value '\'' then .str (jsSlice1m1 value)
  else if value = "true" then .bool true
  else if value = "false" then .bool false
  else if value = "null" then .null
  else
    match jsNumber value with
    | some n => .num n
    | none => .str value

/-- JavaScript template-literal coercion of a typed value to a string, as
used in the LIKE-pattern bindings. -/
def jsDisplay : TypedValue → String
  | .str s => s
  | .num n => jsNumToString n
  | .bool true => "true"
  | .bool false => "false"
  | .null => "null"

/-! ## Leftmost-match backtracking engine for the source's regexes -/

/-- Case-insensitive character comparison, as under the regex `i` flag. -/
def ciEqChar (a b : Char) : Bool := a.toLower == b.toLower

/-- Literal prefix test under a character comparison. -/
def prefixBy (eqf : Char → Char → Bool) : List Char → List Char → Bool
  | [], _ => true
  | _ :: _, [] => false
  | a :: as, b :: bs => eqf a b && prefixBy eqf as bs

/-- Backtracking loop for a pattern `(.+?)sep...`: the lazy group has
already consumed `acc` (reversed, non-empty); at each step the literal
`sep` is tried at the current position and, on success, `cont` must accept
the remainder, otherwise the lazy group grows by one non-newline
character.  Returns the group and the continuation's result. -/
def lazyFind {β : Type} (eqf : Char → Char → Bool) (sep : List Char)
    (cont : List Char → Option β) (acc : List Char) :
    List Char → Option (List Char × β)
  | [] => none
  | c :: rs =>
    match (if prefixBy eqf sep (c :: rs) then cont ((c :: rs).drop sep.length) else none) with
    | some b => some (acc.reverse, b)
    | none => if c == '\n' then none else lazyFind eqf sep cont (c :: acc) rs

/-- Matcher for `(.+?)sep...` anchored at the start of the input: the lazy
group takes at least one (non-newline) character. -/
def anchorLazy {β : Type} (eqf : Char → Char → Bool) (sep : List Char)
    (cont : List Char → Option β) : List Char → Option (List Char × β)
  | [] => none
  | c :: rs => if c == '\n' then none else lazyFind eqf sep cont [c] rs

/-- Leftmost-match search: try the anchored matcher at every start
position, earliest first (JavaScript `String.prototype.match`). -/
def regexFind {γ : Type} (anchored : List Char → Option γ) : List Char → Option γ
  | [] => anchored []
  | c :: rs =>
    match anchored (c :: rs) with
    | some r => some r
    | none => regexFind anchored rs

/-- Matcher for the case-insensitive patterns `/(.+?) eq 'null'/i` and
`/(.+?) ne 'null'/i`: returns capture group 1. -/
def mCI (sep : String) (s : String) : Option String :=
  (regexFind (anchorLazy ciEqChar sep.data (fun _ => some ())) s.data).map (fun p => ⟨p.1⟩)

/-- Matcher for the binary patterns `/(.+?) op (.+)/` (case-sensitive):
returns capture groups 1 and 2; group 2 is the greedy non-newline run. -/
def mBin (sep : String) (s : String) : Option (String × String) :=
  (regexFind (anchorLazy (fun a b => a == b) sep.data (fun after =>
      let g2 := after.takeWhile (fun c => !(c == '\n'))
      if g2.isEmpty then none else some g2)) s.data).map
    (fun p => (⟨p.1⟩, ⟨p.2⟩))

/-- Matcher for the function-call patterns `/name\((.+?),(.+?)\)/`
(case-sensitive), `name(` being passed as `head`: returns the two capture
groups. -/
def mFun (head : String) (s : String) : Option (String × String) :=
  (regexFind (fun t =>
    if head.data.isPrefixOf t then
      match t.drop head.data.length with
      | [] => none
      | c :: rs =>
        if c == '\n' then none
        else
          (lazyFind (fun a b => a == b) [','] (fun afterComma =>
              match afterComma with
              | [] => none
              | c2 :: rs2 =>
                if c2 == '\n' then none
                else (lazyFind (fun a b => a == b) [')'] (fun _ => some ()) [c2] rs2).map
                  (fun q => q.1))
            [c] rs)
    else none) s.data).map (fun p => (⟨p.1⟩, ⟨p.2⟩))

/-! ## The predicate model (`addWhere` and the filter strategies) -/

/-- One `andWhere(condition, parameters)` call recorded as a value: the
condition template together with the named parameter bindings. -/
structure PredicateDescriptor where
  condition : String
  bindings : List (String × TypedValue)
deriving DecidableEq

/-- The root-alias qualification `addWhere` performs on its condition:
prepend `entity.` unless the condition already starts with it or contains
a dot. -/
def qualifyCondition (condition : String) : String :=
  if ¬ (strStartsWith condition "entity." = true) ∧ ¬ (strContainsChar condition '.' = true) then
    "entity." ++ condition
  else condition

/-- `ODataBuilder.addWhere`: qualifies the condition and forwards it with
its parameters to the query builder. -/
def addWhere (condition : String) (parameters : List (String × TypedValue)) : PredicateDescriptor :=
  ⟨qualifyCondition condition, parameters⟩

/-- The eleven regex strategies of `parseAndApplyFilter`, in source
order. -/
inductive FilterOp where
  | eqNull | neNull | eqOp | neOp | gtOp | geOp | ltOp | leOp
  | containsOp | startsWithOp | endsWithOp
deriving DecidableEq

/-- First matching strategy for a clause, with its capture groups (group 2
is absent for the two null patterns), in the source's array order. -/
def firstStrategy (s : String) : Option (FilterOp × String × Option String) :=
  ((mCI " eq 'null'" s).map (fun f => (FilterOp.eqNull, f, none))) <|>
  ((mCI " ne 'null'" s).map (fun f => (FilterOp.neNull, f, none))) <|>
  ((mBin " eq " s).map (fun p => (FilterOp.eqOp, p.1, some p.2))) <|>
  ((mBin " ne " s).map (fun p => (FilterOp.neOp, p.1, some p.2))) <|>
  ((mBin " gt " s).map (fun p => (FilterOp.gtOp, p.1, some p.2))) <|>
  ((mBin " ge " s).map (fun p => (FilterOp.geOp, p.1, some p.2))) <|>
  ((mBin " lt " s).map (fun p => (FilterOp.ltOp, p.1, some p.2))) <|>
  ((mBin " le " s).map (fun p => (FilterOp.leOp, p.1, some p.2))) <|>
  ((mFun "contains(" s).map (fun p => (FilterOp.containsOp, p.1, some p.2))) <|>
  ((mFun "startswith(" s).map (fun p => (FilterOp.startsWithOp, p.1, some p.2))) <|>
  ((mFun "endswith(" s).map (fun p => (FilterOp.endsWithOp, p.1, some p.2)))

/-- The `handle` closure of each strategy: builds the `addWhere` call from
the trimmed field, the trimmed raw value (absent for the null patterns)
and the clause index.  The value reaches the condition template only as
the placeholder `:val<index>`; the parsed value itself goes into the
bindings, wrapped in `%` wildcards for the LIKE strategies. -/
def handleOp (op : FilterOp) (field : String) (value : Option String) (index : ℕ) : PredicateDescriptor :=
  let key := "val" ++ natToDec index
  let ph := ":val" ++ natToDec index
  let pv := parseValue (value.getD "")
  match op with
  | .eqNull => addWhere (field ++ " IS NULL") []
  | .neNull => addWhere (field ++ " IS NOT NULL") []
  | .eqOp => addWhere (field ++ " = " ++ ph) [(key, pv)]
  | .neOp => addWhere (field ++ " != " ++ ph) [(key, pv)]
  | .gtOp => addWhere (field ++ " > " ++ ph) [(key, pv)]
  | .geOp => addWhere (field ++ " >= " ++ ph) [(key, pv)]
  | .ltOp => addWhere (field ++ " < " ++ ph) [(key, pv)]
  | .leOp => addWhere (field ++ " <= " ++ ph) [(key, pv)]
  | .containsOp => addWhere (field ++ " LIKE " ++ ph) [(key, .str ("%" ++ jsDisplay pv ++ "%"))]
  | .startsWithOp => addWhere (field ++ " LIKE " ++ ph) [(key, .str (jsDisplay pv ++ "%"))]
  | .endsWithOp => addWhere (field ++ " LIKE " ++ ph) [(key, .str ("%" ++ jsDisplay pv))]

/-- `ODataBuilder.parseAndApplyFilter`: the first matching strategy wins;
its field (group 1, trimmed) is checked against the filter allow-list
(a non-empty list must contain it, otherwise the whole clause is dropped)
and the strategy's handler is applied.  `none` means no `andWhere` call. -/
def parseAndApplyFilter (filter : String) (index : ℕ) (allowed : List String) : Option PredicateDescriptor :=
  match firstStrategy filter with
  | none => none
  | some (op, rawField, rawValue) =>
    let field := jsTrim rawField
    let value := rawValue.map jsTrim
    if 0 < allowed.length ∧ field ∉ allowed then none
    else some (handleOp op field value index)

/-- The `forEach` loop of `applyFilters`: clause `i` of the split is
parsed and applied with index `i`. -/
def applyFiltersGo (allowed : List String) : ℕ → List String → List PredicateDescriptor
  | _, [] => []
  | i, part :: rest =>
    match parseAndApplyFilter (jsTrim part) i allowed with
    | none => applyFiltersGo allowed (i + 1) rest
    | some pred => pred :: applyFiltersGo allowed (i + 1) rest

/-- `ODataBuilder.applyFilters`: nothing for a falsy `$filter`, otherwise
split on the literal separator and apply each clause at its index. -/
def applyFilters (filter : Option String) (allowed : List String) : List PredicateDescriptor :=
  match filter with
  | none => []
  | some s => if s = "" then [] else applyFiltersGo allowed 0 (jsSplit " and " s)

/-! ## Sorts, expands, pagination, envelope -/

/-- Outcome of `applySorts`: either the ordered list of
`addOrderBy(field, direction)` calls, or a thrown `TypeError` (the
JavaScript crash when an entry has no direction token and
`dir.toUpperCase()` is called on `undefined`). -/
inductive SortsResult where
  | crash
  | calls (l : List (String × String))
deriving DecidableEq

/-- The `forEach` loop of `applySorts`: each entry is trimmed and split on
a single space into `[field, dir]`; unauthorized fields are skipped; a
missing direction crashes; otherwise `addOrderBy('entity.' + field,
dir.toUpperCase())` is recorded. -/
def applySortsGo (allowed : List String) : List String → SortsResult
  | [] => .calls []
  | s :: rest =>
    let parts := jsSplit " " (jsTrim s)
    let field := parts.headD ""
    if 0 < allowed.length ∧ field ∉ allowed then applySortsGo allowed rest
    else
      match (parts.drop 1).head? with
      | none => .crash
      | some dir =>
        match applySortsGo allowed rest with
        | .crash => .crash
        | .calls l => .calls (("entity." ++ field, jsToUpper dir) :: l)

/-- `ODataBuilder.applySorts`: nothing for a falsy `$orderby`, otherwise
split on commas and process each entry. -/
def applySorts (orderby : Option String) (allowed : List String) : SortsResult :=
  match orderby with
  | none => .calls []
  | some s => if s = "" then .calls [] else applySortsGo allowed (jsSplit "," s)

/-- The `forEach` loop of `applyExpands`: each entry is trimmed,
authorized, and `leftJoinAndSelect('entity.' + relation, relation)` is
recorded per surviving occurrence. -/
def applyExpandsGo (allowed : List String) : List String → List (String × String)
  | [] => []
  | e :: rest =>
    let relation := jsTrim e
    if 0 < allowed.length ∧ relation ∉ allowed then applyExpandsGo allowed rest
    else ("entity." ++ relation, relation) :: applyExpandsGo allowed rest

/-- `ODataBuilder.applyExpands`: nothing for a falsy `$expand`, otherwise
split on commas and process each entry. -/
def applyExpands (expand : Option String) (allowed : List String) : List (String × String) :=
  match expand with
  | none => []
  | some s => if s = "" then [] else applyExpandsGo allowed (jsSplit "," s)

/-- The optional leading sign of a JavaScript numeric string: the sign as
`1`/`-1` and the remaining characters. -/
def jsSign (cs : List Char) : ℤ × List Char :=
  match cs with
  | [] => (1, [])
  | c :: r => if c == '+' then (1, r) else if c == '-' then (-1, r) else (1, c :: r)

/-- Whether the characters begin with the `parseInt` hex prefix
`0x`/`0X`. -/
def isHexPrefixed : List Char → Bool
  | '0' :: x :: _ => x == 'x' || x == 'X'
  | _ => false

/-- The characters after a two-character prefix. -/
def hexTail : List Char → List Char
  | _ :: _ :: rest => rest
  | _ => []

/-- The digit-consuming part of `parseInt` after sign handling: hex when
`0x`-prefixed, otherwise the longest decimal digit prefix; no digits at
all is `NaN`. -/
def parseIntBody (sgn : ℤ) (cs1 : List Char) : Option ℤ :=
  if isHexPrefixed cs1 then
    let ds := (hexTail cs1).takeWhile (fun c => charDigitVal c < 16)
    if ds.isEmpty then none else some (sgn * radixVal 16 ds)
  else
    let ds := cs1.takeWhile Char.isDigit
    if ds.isEmpty then none else some (sgn * natOfDigits ds)

/-- JavaScript `parseInt(string)` with no radix argument: strip leading
whitespace, optional sign, optional `0x`/`0X` hex prefix, then the longest
digit prefix; `none` models `NaN`. -/
def parseIntJS (s : String) : Option ℤ :=
  let p := jsSign (s.data.dropWhile jsWhitespace)
  parseIntBody p.1 p.2

/-- `ODataBuilder.applyPagination`: the recorded `take` and `skip` calls.
The outer `Option` is whether the call happens at all (only for a truthy
`$top`/`$skip` string); the inner `Option ℤ` is the forwarded `parseInt`
result, `none` being `NaN`. -/
def applyPagination (top skp : Option String) : Option (Option ℤ) × Option (Option ℤ) :=
  ((match top with
    | none => none
    | some s => if s = "" then none else some (parseIntJS s)),
   (match skp with
    | none => none
    | some s => if s = "" then none else some (parseIntJS s)))

/-- The response-envelope fields computed at the end of
`ODataBuilder.execute` (`from`/`to` are spelled `fromIdx`/`toIdx`).
`Math.floor`/`Math.ceil` on the float divisions are modelled by exact
rational floor and ceiling. -/
structure ResultEnvelope where
  per_page : ℕ
  current_page : ℕ
  last_page : ℕ
  fromIdx : ℕ
  toIdx : ℕ
deriving DecidableEq

/-- The envelope arithmetic of `execute` for non-negative integral
`skip`/`limit`/`total` and row count. -/
def buildEnvelope (skip limit total dataLength : ℕ) : ResultEnvelope :=
  ⟨if 0 < limit then limit else total,
   if 0 < limit then ⌊(skip : ℚ) / (limit : ℚ)⌋₊ + 1 else 1,
   if 0 < limit then ⌈(total : ℚ) / (limit : ℚ)⌉₊ else 1,
   if total = 0 then 0 else skip + 1,
   if total = 0 then 0 else skip + dataLength⟩

/-! ## The specification's value-coercion rules, for comparison -/

/-- Surrounded by a matching pair of quote characters `c` (spec rule 1:
a pair needs length at least two). -/
def specQuotedPair (s : String) (c : Char) : Bool :=
  decide (2 ≤ s.data.length) && headIs s c && lastIs s c

/-- Spec rule 4's value grammar: an integer or decimal numeric literal
with optional leading minus. -/
def specNumericLit (cs : List Char) : Bool :=
  let cs1 := if cs.head? == some '-' then cs.tail else cs
  let ip := cs1.takeWhile Char.isDigit
  let csA := cs1.dropWhile Char.isDigit
  !ip.isEmpty &&
    (csA.isEmpty ||
      (csA.head? == some '.' && !(csA.drop 1).isEmpty && (csA.drop 1).all Char.isDigit))

/-- Value of a spec numeric literal, in the `JsNum` representation. -/
def specNumValue (cs : List Char) : JsNum :=
  let neg := cs.head? == some '-'
  let cs1 := if neg then cs.tail else cs
  let ip := cs1.takeWhile Char.isDigit
  let fp := ((cs1.dropWhile Char.isDigit).drop 1).takeWhile Char.isDigit
  JsNum.mkFin ((if neg then -1 else 1) * ((natOfDigits ip) * 10 ^ fp.length + natOfDigits fp))
    (10 ^ fp.length)

/-- Value coercion exactly as the specification words it (section 4.1):
quoted pair, `true`/`false`, `null`, integer-or-decimal literal, else the
verbatim string. -/
def specCoerce (s : String) : TypedValue :=
  if specQuotedPair s '"' || specQuotedPair s '\'' then .str (jsSlice1m1 s)
  else if s = "true" then .bool true
  else if s = "false" then .bool false
  else if s = "null" then .null
  else if specNumericLit s.data then .num (specNumValue s.data)
  else .str s

/-- Field-name characters for which the regex walk is predictable: not
newline, not whitespace, and not case-insensitively equal to a space. -/
def plainFieldChar (c : Char) : Bool := !(ciEqChar ' ' c) && !(jsWhitespace c)

/-! ## Character and digit lemmas -/

theorem toNat_digitChar (m : ℕ) (h : m < 10) : (digitChar m).toNat - 48 = m := by
  interval_cases m <;> decide

theorem digitChar_isDigit (m : ℕ) : (digitChar m).isDigit = true := by
  unfold digitChar
  split <;> decide

theorem isDigit_ne {c d : Char} (h : c.isDigit = true) (hd : d.isDigit = false) :
    (c == d) = false := by
  cases hcd : c == d
  · rfl
  · have he : c = d := eq_of_beq hcd
    subst he
    rw [h] at hd
    cases hd

theorem isDigit_not_ws {c : Char} (h : c.isDigit = true) : jsWhitespace c = false := by
  cases hw : jsWhitespace c
  · rfl
  · exfalso
    simp only [jsWhitespace, Bool.or_eq_true, beq_iff_eq] at hw
    rcases hw with ((((((h1 | h1) | h1) | h1) | h1) | h1) | h1) | h1 <;>
      subst h1 <;> exact absurd h (by decide)

theorem natOfDigits_append_singleton (l : List Char) (c : Char) :
    natOfDigits (l ++ [c]) = natOfDigits l * 10 + (c.toNat - 48) := by
  simp [natOfDigits, List.foldl_append]

theorem natToDecAux_spec :
    ∀ fuel n, n < fuel →
      natToDecAux fuel n ≠ [] ∧ (∀ c ∈ natToDecAux fuel n, c.isDigit = true) ∧
        natOfDigits (natToDecAux fuel n) = n := by
  intro fuel
  induction fuel with
  | zero => intro n h; exact absurd h (Nat.not_lt_zero n)
  | succ fuel ih =>
    intro n h
    by_cases h10 : n < 10
    · refine ⟨by simp [natToDecAux, h10], ?_, ?_⟩
      · intro c hc
        simp [natToDecAux, h10] at hc
        subst hc
        exact digitChar_isDigit n
      · simp [natToDecAux, h10, natOfDigits]
        exact toNat_digitChar n h10
    · have hdiv : n / 10 < fuel := by
        have h1 : n / 10 < n := Nat.div_lt_self (by omega) (by omega)
        omega
      obtain ⟨hne, hdig, hval⟩ := ih (n / 10) hdiv
      have hunf : natToDecAux (fuel + 1) n = natToDecAux fuel (n / 10) ++ [digitChar (n % 10)] := by
        simp [natToDecAux, h10]
      refine ⟨by rw [hunf]; simp, ?_, ?_⟩
      · intro c hc
        rw [hunf] at hc
        rcases List.mem_append.mp hc with hc | hc
        · exact hdig c hc
        · simp at hc
          subst hc
          exact digitChar_isDigit _
      · rw [hunf, natOfDigits_append_singleton, hval,
          toNat_digitChar _ (Nat.mod_lt n (by omega))]
        omega

theorem natToDecL_spec (n : ℕ) :
    natToDecL n ≠ [] ∧ (∀ c ∈ natToDecL n, c.isDigit = true) ∧
      natOfDigits (natToDecL n) = n :=
  natToDecAux_spec (n + 1) n (by omega)

theorem natToDec_inj {a b : ℕ} (h : natToDec a = natToDec b) : a = b := by
  have hd : natToDecL a = natToDecL b := congrArg String.data h
  have ha := (natToDecL_spec a).2.2
  have hb := (natToDecL_spec b).2.2
  rw [← ha, ← hb, hd]

/-! ## List and string helper lemmas -/

theorem dropWhile_eq_self_of {p : Char → Bool} {l : List Char}
    (h : ∀ c ∈ l, p c = false) : l.dropWhile p = l := by
  cases l with
  | nil => rfl
  | cons c rest => simp [List.dropWhile_cons, h c (List.mem_cons_self c rest)]

theorem jsTrim_eq_self {s : String} (h : ∀ c ∈ s.data, jsWhitespace c = false) :
    jsTrim s = s := by
  apply String.ext
  show jsTrimL s.data = s.data
  unfold jsTrimL
  rw [dropWhile_eq_self_of h,
    dropWhile_eq_self_of (fun c hc => h c (List.mem_reverse.mp hc)),
    List.reverse_reverse]

theorem mk_data_eq (s : String) : (⟨s.data⟩ : String) = s := String.ext rfl

theorem strContainsChar_iff {s : String} {c : Char} :
    strContainsChar s c = true ↔ c ∈ s.data := by
  unfold strContainsChar
  exact List.elem_iff

theorem strContainsChar_append (a b : String) (c : Char) :
    strContainsChar (a ++ b) c = (strContainsChar a c || strContainsChar b c) := by
  cases h : strContainsChar (a ++ b) c
  · have hm : c ∉ (a ++ b).data := fun hc => by
      rw [← strContainsChar_iff] at hc
      rw [h] at hc
      cases hc
    rw [String.data_append, List.mem_append] at hm
    push_neg at hm
    have ha : strContainsChar a c = false := by
      cases h2 : strContainsChar a c
      · rfl
      · exact absurd (strContainsChar_iff.mp h2) hm.1
    have hb : strContainsChar b c = false := by
      cases h2 : strContainsChar b c
      · rfl
      · exact absurd (strContainsChar_iff.mp h2) hm.2
    rw [ha, hb]
    rfl
  · have hm := strContainsChar_iff.mp h
    rw [String.data_append, List.mem_append] at hm
    rcases hm with hm | hm
    · rw [(@strContainsChar_iff a c).mpr hm]
      rfl
    · rw [(@strContainsChar_iff b c).mpr hm, Bool.or_true]

/-! ## Regex engine lemmas -/

theorem prefixBy_append_self (eqf : Char → Char → Bool) :
    ∀ (sep : List Char), (∀ c ∈ sep, eqf c c = true) →
      ∀ X, prefixBy eqf sep (sep ++ X) = true := by
  intro sep
  induction sep with
  | nil => intro _ X; rfl
  | cons c rest ih =>
    intro h X
    simp only [List.cons_append, prefixBy, h c (List.mem_cons_self c rest),
      Bool.true_and]
    exact ih (fun d hd => h d (List.mem_cons_of_mem c hd)) X


theorem lazyFind_reach {β : Type} (eqf : Char → Char → Bool) (s1 : Char) (srest : List Char)
    (cont : List Char → Option β) (b : β) :
    ∀ (mid acc tail : List Char),
      (∀ c ∈ mid, eqf s1 c = false ∧ (c == '\n') = false) →
      prefixBy eqf (s1 :: srest) ((s1 :: srest) ++ tail) = true →
      cont tail = some b →
      lazyFind eqf (s1 :: srest) cont acc (mid ++ (s1 :: srest) ++ tail) =
        some (acc.reverse ++ mid, b) := by
  intro mid
  induction mid with
  | nil =>
    intro acc tail hmid hpre hcont
    have hdrop : ((s1 :: srest) ++ tail).drop (s1 :: srest).length = tail :=
      List.drop_left (s1 :: srest) tail
    rw [List.nil_append, List.cons_append, lazyFind, ← List.cons_append, hpre, hdrop,
      hcont]
    simp
  | cons c mid' ih =>
    intro acc tail hmid hpre hcont
    have hc := hmid c (List.mem_cons_self c mid')
    have hrs : (c :: mid') ++ (s1 :: srest) ++ tail = c :: (mid' ++ (s1 :: srest) ++ tail) := by
      simp
    rw [hrs, lazyFind]
    have hpre2 : prefixBy eqf (s1 :: srest) (c :: (mid' ++ (s1 :: srest) ++ tail)) = false := by
      simp [prefixBy, hc.1]
    rw [hpre2]
    simp only [Bool.false_eq_true, if_false, hc.2]
    rw [ih (c :: acc) tail (fun d hd => hmid d (List.mem_cons_of_mem c hd)) hpre hcont]
    simp

theorem lazyFind_none {β : Type} (eqf : Char → Char → Bool) (sep : List Char)
    (cont : List Char → Option β) :
    ∀ (rest : List Char),
      (∀ n : ℕ,
        (if prefixBy eqf sep (rest.drop n) then cont ((rest.drop n).drop sep.length)
         else none) = none) →
      ∀ acc, lazyFind eqf sep cont acc rest = none := by
  intro rest
  induction rest with
  | nil => intro _ _; rfl
  | cons c rs ih =>
    intro h acc
    rw [lazyFind]
    have h0 := h 0
    simp only [List.drop_zero] at h0
    rw [h0]
    cases hcn : c == '\n'
    · simp only [Bool.false_eq_true, if_false]
      refine ih (fun n => ?_) (c :: acc)
      have hn := h (n + 1)
      simpa [List.drop_succ_cons] using hn
    · simp

theorem regexFind_none {γ : Type} (anchored : List Char → Option γ) :
    ∀ s : List Char, (∀ n : ℕ, anchored (s.drop n) = none) → regexFind anchored s = none := by
  intro s
  induction s with
  | nil => intro h; exact h 0
  | cons c rs ih =>
    intro h
    rw [regexFind]
    have h0 := h 0
    simp only [List.drop_zero] at h0
    rw [h0]
    refine ih (fun n => ?_)
    have hn := h (n + 1)
    simpa [List.drop_succ_cons] using hn

theorem regexFind_here {γ : Type} (anchored : List Char → Option γ) (s : List Char)
    (r : γ) (h : anchored s = some r) : regexFind anchored s = some r := by
  cases s with
  | nil => rw [regexFind]; exact h
  | cons c rs => rw [regexFind, h]

theorem prefix_fail_of_bounded (eqf : Char → Char → Bool) (s1 : Char) (srest : List Char)
    (tail : List Char)
    (h : ∀ m < tail.length, prefixBy eqf (s1 :: srest) (tail.drop m) = false) :
    ∀ m : ℕ, prefixBy eqf (s1 :: srest) (tail.drop m) = false := by
  intro m
  rcases lt_or_ge m tail.length with hm | hm
  · exact h m hm
  · rw [List.drop_eq_nil_of_le hm]
    rfl

theorem prefix_fail_append (eqf : Char → Char → Bool) (s1 : Char) (srest : List Char)
    (f tail : List Char)
    (hf : ∀ c ∈ f, eqf s1 c = false)
    (ht : ∀ m : ℕ, prefixBy eqf (s1 :: srest) (tail.drop m) = false) :
    ∀ n : ℕ, prefixBy eqf (s1 :: srest) ((f ++ tail).drop n) = false := by
  intro n
  rcases le_or_lt n f.length with hn | hn
  · rw [List.drop_append_of_le_length hn]
    cases hfd : f.drop n with
    | nil => simpa using ht 0
    | cons c rest' =>
      have hc : c ∈ f := List.drop_subset n f (by rw [hfd]; exact List.mem_cons_self c rest')
      simp [prefixBy, hf c hc]
  · have hsplit := @List.drop_append _ f tail (n - f.length)
    rw [show f.length + (n - f.length) = n from by omega] at hsplit
    rw [hsplit]
    exact ht (n - f.length)

theorem takeWhile_eq_self_of {p : Char → Bool} {l : List Char}
    (h : ∀ c ∈ l, p c = true) : l.takeWhile p = l :=
  List.takeWhile_eq_self_iff.mpr h

theorem mCI_split (sep : String) (s1 : Char) (srest : List Char) (hsep : sep.data = s1 :: srest)
    (s f : String) (tail : List Char)
    (hs : s.data = f.data ++ sep.data ++ tail)
    (hf : f.data ≠ [])
    (hfc : ∀ c ∈ f.data, ciEqChar s1 c = false ∧ (c == '\n') = false)
    (hpre : prefixBy ciEqChar (s1 :: srest) ((s1 :: srest) ++ tail) = true) :
    mCI sep s = some f := by
  obtain ⟨c0, frest, hfd⟩ : ∃ c0 frest, f.data = c0 :: frest := by
    cases hfd : f.data with
    | nil => exact absurd hfd hf
    | cons a b => exact ⟨a, b, rfl⟩
  have hc0 := hfc c0 (by rw [hfd]; exact List.mem_cons_self _ _)
  have hsd : s.data = c0 :: (frest ++ (s1 :: srest) ++ tail) := by
    rw [hs, hfd, hsep]
    simp
  have hanch : anchorLazy ciEqChar (s1 :: srest) (fun _ => some ())
      (c0 :: (frest ++ (s1 :: srest) ++ tail)) = some (c0 :: frest, ()) := by
    simp only [anchorLazy]
    rw [hc0.2]
    simp only [Bool.false_eq_true, if_false]
    have hw := lazyFind_reach ciEqChar s1 srest (fun _ => some ()) () frest [c0] tail
      (fun d hd => hfc d (by rw [hfd]; exact List.mem_cons_of_mem c0 hd)) hpre rfl
    simpa using hw
  unfold mCI
  rw [hsep, hsd, regexFind_here _ _ _ hanch]
  simp only [Option.map_some']
  rw [show (⟨c0 :: frest⟩ : String) = f from by rw [← hfd]]

theorem mCI_none (sep : String) (s1 : Char) (srest : List Char) (hsep : sep.data = s1 :: srest)
    (s : String)
    (h : ∀ n : ℕ, prefixBy ciEqChar (s1 :: srest) (s.data.drop n) = false) :
    mCI sep s = none := by
  unfold mCI
  rw [hsep]
  have hr : regexFind (anchorLazy ciEqChar (s1 :: srest) (fun _ => some ())) s.data = none := by
    apply regexFind_none
    intro n
    cases hdn : s.data.drop n with
    | nil => rfl
    | cons c rs =>
      simp only [anchorLazy]
      cases hcn : c == '\n'
      · simp only [Bool.false_eq_true, if_false]
        apply lazyFind_none
        intro m
        have hrs : rs = s.data.drop (n + 1) := by
          have h1 : List.drop 1 (List.drop n s.data) = List.drop (n + 1) s.data :=
            List.drop_drop 1 n s.data
          rw [hdn] at h1
          simpa using h1
        have hp : prefixBy ciEqChar (s1 :: srest) (rs.drop m) = false := by
          rw [hrs, List.drop_drop]
          exact h (n + 1 + m)
        rw [hp]
        simp
      · simp
  rw [hr]
  rfl

theorem mBin_split (sep : String) (s1 : Char) (srest : List Char) (hsep : sep.data = s1 :: srest)
    (s f t : String)
    (hs : s.data = f.data ++ sep.data ++ t.data)
    (hf : f.data ≠ [])
    (hfc : ∀ c ∈ f.data, (s1 == c) = false ∧ (c == '\n') = false)
    (hpre : prefixBy (fun a b => a == b) (s1 :: srest) ((s1 :: srest) ++ t.data) = true)
    (htne : t.data ≠ [])
    (htnl : ∀ c ∈ t.data, (c == '\n') = false) :
    mBin sep s = some (f, t) := by
  obtain ⟨c0, frest, hfd⟩ : ∃ c0 frest, f.data = c0 :: frest := by
    cases hfd : f.data with
    | nil => exact absurd hfd hf
    | cons a b => exact ⟨a, b, rfl⟩
  have hc0 := hfc c0 (by rw [hfd]; exact List.mem_cons_self _ _)
  have hsd : s.data = c0 :: (frest ++ (s1 :: srest) ++ t.data) := by
    rw [hs, hfd, hsep]
    simp
  have hcont : (fun after =>
      let g2 := after.takeWhile (fun c => !(c == '\n'))
      if g2.isEmpty then none else some g2) t.data = some t.data := by
    have htw : t.data.takeWhile (fun c => !(c == '\n')) = t.data :=
      takeWhile_eq_self_of (fun c hc => by rw [htnl c hc]; rfl)
    simp only [htw]
    cases htd : t.data with
    | nil => exact absurd htd htne
    | cons a b => simp
  have hanch : anchorLazy (fun a b => a == b) (s1 :: srest)
      (fun after =>
        let g2 := after.takeWhile (fun c => !(c == '\n'))
        if g2.isEmpty then none else some g2)
      (c0 :: (frest ++ (s1 :: srest) ++ t.data)) = some (c0 :: frest, t.data) := by
    simp only [anchorLazy]
    rw [hc0.2]
    simp only [Bool.false_eq_true, if_false]
    have hw := lazyFind_reach (fun a b => a == b) s1 srest
      (fun after =>
        let g2 := after.takeWhile (fun c => !(c == '\n'))
        if g2.isEmpty then none else some g2) t.data frest [c0] t.data
      (fun d hd => hfc d (by rw [hfd]; exact List.mem_cons_of_mem c0 hd)) hpre hcont
    simpa using hw
  unfold mBin
  rw [hsep, hsd, regexFind_here _ _ _ hanch]
  simp only [Option.map_some']
  rw [show (⟨c0 :: frest⟩ : String) = f from by rw [← hfd],
    show (⟨t.data⟩ : String) = t from mk_data_eq t]

/-! ## `parseInt` lemmas -/

theorem isHexPrefixed_spec {cs : List Char} (h : isHexPrefixed cs = true) :
    ∃ x rest, cs = '0' :: x :: rest ∧ (x = 'x' ∨ x = 'X') := by
  unfold isHexPrefixed at h
  split at h
  · rename_i x rest
    refine ⟨x, rest, rfl, ?_⟩
    rcases Bool.or_eq_true_iff.mp h with hx | hx
    · exact Or.inl (eq_of_beq hx)
    · exact Or.inr (eq_of_beq hx)
  · cases h

theorem jsSign_no_sign {c : Char} {r : List Char}
    (hplus : (c == '+') = false) (hminus : (c == '-') = false) :
    jsSign (c :: r) = (1, c :: r) := by
  simp [jsSign, hplus, hminus]

theorem parseIntBody_digits (sgn : ℤ) (n : ℕ) :
    parseIntBody sgn (natToDecL n) = some (sgn * n) := by
  obtain ⟨hne, hdig, hval⟩ := natToDecL_spec n
  have hhex : isHexPrefixed (natToDecL n) = false := by
    cases hh : isHexPrefixed (natToDecL n)
    · rfl
    · exfalso
      obtain ⟨x, rest, hshape, hx⟩ := isHexPrefixed_spec hh
      have hxd : x.isDigit = true := hdig x (by rw [hshape]; simp)
      rcases hx with hx | hx <;> subst hx <;> exact absurd hxd (by decide)
  unfold parseIntBody
  rw [hhex]
  simp only [Bool.false_eq_true, if_false]
  rw [takeWhile_eq_self_of hdig]
  cases hsh : natToDecL n with
  | nil => exact absurd hsh hne
  | cons a b =>
    simp only [List.isEmpty_cons, Bool.false_eq_true, if_false]
    rw [← hsh, hval]

theorem parseIntJS_natToDec (n : ℕ) : parseIntJS (natToDec n) = some (n : ℤ) := by
  obtain ⟨hne, hdig, hval⟩ := natToDecL_spec n
  obtain ⟨c0, rest, hsh⟩ : ∃ c0 rest, natToDecL n = c0 :: rest := by
    cases hsh : natToDecL n with
    | nil => exact absurd hsh hne
    | cons a b => exact ⟨a, b, rfl⟩
  have hc0 : c0.isDigit = true := hdig c0 (by rw [hsh]; simp)
  unfold parseIntJS
  have hdata : (natToDec n).data = natToDecL n := rfl
  rw [hdata]
  rw [dropWhile_eq_self_of (fun c hc => isDigit_not_ws (hdig c hc))]
  rw [hsh, jsSign_no_sign (isDigit_ne hc0 (by decide)) (isDigit_ne hc0 (by decide)), ← hsh]
  rw [parseIntBody_digits]
  simp

theorem parseIntJS_neg_natToDec (n : ℕ) : parseIntJS ("-" ++ natToDec n) = some (-(n : ℤ)) := by
  obtain ⟨hne, hdig, hval⟩ := natToDecL_spec n
  unfold parseIntJS
  have hdata : ("-" ++ natToDec n).data = '-' :: natToDecL n := by
    rw [String.data_append]
    rfl
  rw [hdata]
  rw [show ('-' :: natToDecL n).dropWhile jsWhitespace = '-' :: natToDecL n from by
    simp [List.dropWhile_cons, show jsWhitespace '-' = false from by decide]]
  rw [show jsSign ('-' :: natToDecL n) = (-1, natToDecL n) from by simp [jsSign]]
  rw [parseIntBody_digits]
  simp

/-! ## Filter-strategy shape lemmas -/

theorem handleOp_bindings (op : FilterOp) (field : String) (value : Option String) (i : ℕ) :
    (handleOp op field value i).bindings = [] ∨
      ∃ tv, (handleOp op field value i).bindings = [("val" ++ natToDec i, tv)] := by
  cases op <;> first
    | exact Or.inl rfl
    | exact Or.inr ⟨_, rfl⟩

theorem parseAndApplyFilter_shape {s : String} {i : ℕ} {al : List String}
    {p : PredicateDescriptor} (h : parseAndApplyFilter s i al = some p) :
    ∃ (op : FilterOp) (f : String) (v : Option String),
      p = handleOp op (jsTrim f) (Option.map jsTrim v) i := by
  unfold parseAndApplyFilter at h
  cases hfs : firstStrategy s with
  | none => rw [hfs] at h; cases h
  | some t =>
    obtain ⟨op, f, v⟩ := t
    rw [hfs] at h
    simp only at h
    split at h
    · cases h
    · injection h with h
      exact ⟨op, f, v, h.symm⟩

theorem parseAndApplyFilter_bindings {s : String} {i : ℕ} {al : List String}
    {p : PredicateDescriptor} (h : parseAndApplyFilter s i al = some p) :
    p.bindings = [] ∨ ∃ tv, p.bindings = [("val" ++ natToDec i, tv)] := by
  obtain ⟨op, f, v, hp⟩ := parseAndApplyFilter_shape h
  rw [hp]
  exact handleOp_bindings op (jsTrim f) (v.map jsTrim) i

/-! ## Qualification lemmas -/

theorem strStartsWith_entity_contains {s : String} (h : strStartsWith s "entity." = true) :
    strContainsChar s '.' = true := by
  unfold strStartsWith at h
  rw [List.isPrefixOf_iff_prefix] at h
  exact strContainsChar_iff.mpr (h.subset (by decide))

theorem qualifyCondition_no_dot {cond : String} (h : strContainsChar cond '.' = false) :
    qualifyCondition cond = "entity." ++ cond := by
  unfold qualifyCondition
  have h1 : ¬ (strStartsWith cond "entity." = true) := by
    intro hs
    rw [strStartsWith_entity_contains hs] at h
    cases h
  have h2 : ¬ (strContainsChar cond '.' = true) := by
    intro hc
    rw [hc] at h
    cases h
  rw [if_pos ⟨h1, h2⟩]

theorem qualifyCondition_dot {cond : String} (h : strContainsChar cond '.' = true) :
    qualifyCondition cond = cond := by
  unfold qualifyCondition
  rw [if_neg (fun hand => hand.2 h)]

theorem natToDec_no_dot (i : ℕ) : strContainsChar (natToDec i) '.' = false := by
  cases hc : strContainsChar (natToDec i) '.'
  · rfl
  · exfalso
    have hd := (natToDecL_spec i).2.1 '.' (strContainsChar_iff.mp hc)
    exact absurd hd (by decide)

theorem plainFieldChar_spec {c : Char} (h : plainFieldChar c = true) :
    ciEqChar ' ' c = false ∧ (' ' == c) = false ∧ (c == '\n') = false ∧
      jsWhitespace c = false := by
  simp only [plainFieldChar, Bool.and_eq_true, Bool.not_eq_true'] at h
  obtain ⟨h1, h2⟩ := h
  refine ⟨h1, ?_, ?_, h2⟩
  · cases hs : ' ' == c
    · rfl
    · have he : (' ' : Char) = c := eq_of_beq hs
      rw [← he] at h2
      exact absurd h2 (by decide)
  · cases hs : c == '\n'
    · rfl
    · have he : c = '\n' := eq_of_beq hs
      rw [he] at h2
      exact absurd h2 (by decide)

/-! ## Envelope arithmetic lemmas -/

theorem nat_floor_cast_div (s l : ℕ) : ⌊(s : ℚ) / (l : ℚ)⌋₊ = s / l := by
  rw [Nat.floor_div_nat, Nat.floor_natCast]

theorem nat_ceil_cast_div (t l : ℕ) (hl : 0 < l) :
    ⌈(t : ℚ) / (l : ℚ)⌉₊ = (t + l - 1) / l := by
  rcases Nat.eq_zero_or_pos t with ht | ht
  · subst ht
    simp only [Nat.cast_zero, zero_div, Nat.ceil_zero]
    rw [Nat.div_eq_of_lt (by omega)]
  · have hl' : (0 : ℚ) < (l : ℚ) := by exact_mod_cast hl
    have hmod := Nat.div_add_mod (t + l - 1) l
    have hrlt : (t + l - 1) % l < l := Nat.mod_lt _ hl
    set D := (t + l - 1) / l with hD
    set r := (t + l - 1) % l with hr
    have hD0 : D ≠ 0 := by
      intro h0
      rw [h0, Nat.mul_zero, Nat.zero_add] at hmod
      omega
    rw [Nat.ceil_eq_iff hD0]
    constructor
    · rw [lt_div_iff₀ hl']
      have hc : (D - 1) * l = l * D - l := by
        rw [Nat.sub_mul, one_mul, Nat.mul_comm]
      have hnat : (D - 1) * l < t := by
        rw [hc]
        omega
      exact_mod_cast hnat
    · rw [div_le_iff₀ hl']
      have hnat : t ≤ D * l := by
        rw [Nat.mul_comm]
        omega
      exact_mod_cast hnat

/-! ## Loop lemmas for filters, sorts and expands -/

theorem valKey_inj {a b : ℕ} (h : ("val" ++ natToDec a : String) = "val" ++ natToDec b) :
    a = b := by
  apply natToDec_inj
  have hd := congrArg String.data h
  rw [String.data_append, String.data_append] at hd
  exact String.ext (List.append_cancel_left hd)

theorem applyFiltersGo_keys (al : List String) :
    ∀ (l : List String) (k : ℕ),
      ((applyFiltersGo al k l).flatMap (fun p => p.bindings.map Prod.fst)).Nodup ∧
      ∀ s ∈ (applyFiltersGo al k l).flatMap (fun p => p.bindings.map Prod.fst),
        ∃ j, k ≤ j ∧ s = "val" ++ natToDec j := by
  intro l
  induction l with
  | nil =>
    intro k
    refine ⟨by simp [applyFiltersGo], ?_⟩
    intro s hs
    simp [applyFiltersGo] at hs
  | cons part rest ih =>
    intro k
    obtain ⟨ihn, ihm⟩ := ih (k + 1)
    cases hp : parseAndApplyFilter (jsTrim part) k al with
    | none =>
      rw [show applyFiltersGo al k (part :: rest) = applyFiltersGo al (k + 1) rest from by
        simp [applyFiltersGo, hp]]
      exact ⟨ihn, fun s hs => by
        obtain ⟨j, hj, he⟩ := ihm s hs
        exact ⟨j, by omega, he⟩⟩
    | some pred =>
      rw [show applyFiltersGo al k (part :: rest) = pred :: applyFiltersGo al (k + 1) rest from by
        simp [applyFiltersGo, hp]]
      rw [List.flatMap_cons]
      rcases parseAndApplyFilter_bindings hp with hb | ⟨tv, hb⟩
      · rw [hb]
        refine ⟨by simpa using ihn, ?_⟩
        intro s hs
        simp only [List.map_nil, List.nil_append] at hs
        obtain ⟨j, hj, he⟩ := ihm s hs
        exact ⟨j, by omega, he⟩
      · rw [hb]
        simp only [List.map_cons, List.map_nil, List.singleton_append]
        constructor
        · rw [List.nodup_cons]
          refine ⟨?_, ihn⟩
          intro hmem
          obtain ⟨j, hj, he⟩ := ihm _ hmem
          have := valKey_inj he
          omega
        · intro s hs
          rcases List.mem_cons.mp hs with hs | hs
          · exact ⟨k, le_rfl, hs⟩
          · obtain ⟨j, hj, he⟩ := ihm s hs
            exact ⟨j, by omega, he⟩

theorem applyExpandsGo_count (al : List String) (r : String) :
    ∀ l : List String,
      List.count ("entity." ++ r, r) (applyExpandsGo al l) =
        List.countP (fun e => jsTrim e == r && !(decide (0 < al.length ∧ r ∉ al))) l := by
  intro l
  induction l with
  | nil => rfl
  | cons e rest ih =>
    by_cases hauth : 0 < al.length ∧ jsTrim e ∉ al
    · rw [show applyExpandsGo al (e :: rest) = applyExpandsGo al rest from by
        simp [applyExpandsGo, hauth]]
      rw [List.countP_cons, ih]
      by_cases hr : jsTrim e = r
      · rw [if_neg]
        · omega
        · subst hr
          simp [hauth]
      · rw [if_neg]
        · omega
        · simp [hr]
    · rw [show applyExpandsGo al (e :: rest) =
          ("entity." ++ jsTrim e, jsTrim e) :: applyExpandsGo al rest from by
        simp [applyExpandsGo, hauth]]
      rw [List.count_cons, List.countP_cons, ih]
      by_cases hr : jsTrim e = r
      · subst hr
        rw [if_pos (by simp), if_pos (by simp [hauth])]
      · rw [if_neg, if_neg]
        · simp [hr]
        · simp [hr]

theorem applySortsGo_entity (al : List String) :
    ∀ (l : List String) (out : List (String × String)),
      applySortsGo al l = .calls out → ∀ p ∈ out, ∃ f, p.1 = "entity." ++ f := by
  intro l
  induction l with
  | nil =>
    intro out h p hp
    rw [show applySortsGo al [] = .calls [] from rfl] at h
    injection h with h
    rw [← h] at hp
    cases hp
  | cons s rest ih =>
    intro out h p hp
    rw [applySortsGo] at h
    split at h
    · exact ih out h p hp
    · split at h
      · cases h
      · rename_i dir hdir
        cases hrec : applySortsGo al rest with
        | crash => rw [hrec] at h; cases h
        | calls l' =>
          rw [hrec] at h
          injection h with h
          rw [← h] at hp
          rcases List.mem_cons.mp hp with hp | hp
          · exact ⟨_, by rw [hp]⟩
          · exact ih l' hrec p hp

/-! ## The three clause shapes of the null-precedence analysis -/

theorem firstStrategy_eq_null (f : String) (hne : f.data ≠ [])
    (hchars : ∀ c ∈ f.data, plainFieldChar c = true) :
    firstStrategy (f ++ " eq 'null'") = some (FilterOp.eqNull, f, none) := by
  have hm : mCI " eq 'null'" (f ++ " eq 'null'") = some f := by
    apply mCI_split " eq 'null'" ' ' ("eq 'null'".data) (by decide) _ f []
    · rw [String.data_append]
      simp
    · exact hne
    · intro c hc
      have h := plainFieldChar_spec (hchars c hc)
      exact ⟨h.1, h.2.2.1⟩
    · apply prefixBy_append_self
      intro c _
      simp [ciEqChar]
  unfold firstStrategy
  rw [hm]
  rfl

theorem firstStrategy_ne_null (f : String) (hne : f.data ≠ [])
    (hchars : ∀ c ∈ f.data, plainFieldChar c = true) :
    firstStrategy (f ++ " ne 'null'") = some (FilterOp.neNull, f, none) := by
  have h1 : mCI " eq 'null'" (f ++ " ne 'null'") = none := by
    apply mCI_none " eq 'null'" ' ' ("eq 'null'".data) (by decide)
    intro n
    rw [String.data_append]
    refine prefix_fail_append ciEqChar ' ' _ f.data (" ne 'null'".data)
      (fun c hc => (plainFieldChar_spec (hchars c hc)).1) ?_ n
    exact prefix_fail_of_bounded _ _ _ _ (by decide)
  have h2 : mCI " ne 'null'" (f ++ " ne 'null'") = some f := by
    apply mCI_split " ne 'null'" ' ' ("ne 'null'".data) (by decide) _ f []
    · rw [String.data_append]
      simp
    · exact hne
    · intro c hc
      have h := plainFieldChar_spec (hchars c hc)
      exact ⟨h.1, h.2.2.1⟩
    · apply prefixBy_append_self
      intro c _
      simp [ciEqChar]
  unfold firstStrategy
  rw [h1, h2]
  rfl

theorem firstStrategy_eq_dquote_null (f : String) (hne : f.data ≠ [])
    (hchars : ∀ c ∈ f.data, plainFieldChar c = true) :
    firstStrategy (f ++ " eq \"null\"") = some (FilterOp.eqOp, f, some "\"null\"") := by
  have h1 : mCI " eq 'null'" (f ++ " eq \"null\"") = none := by
    apply mCI_none " eq 'null'" ' ' ("eq 'null'".data) (by decide)
    intro n
    rw [String.data_append]
    refine prefix_fail_append ciEqChar ' ' _ f.data (" eq \"null\"".data)
      (fun c hc => (plainFieldChar_spec (hchars c hc)).1) ?_ n
    exact prefix_fail_of_bounded _ _ _ _ (by decide)
  have h2 : mCI " ne 'null'" (f ++ " eq \"null\"") = none := by
    apply mCI_none " ne 'null'" ' ' ("ne 'null'".data) (by decide)
    intro n
    rw [String.data_append]
    refine prefix_fail_append ciEqChar ' ' _ f.data (" eq \"null\"".data)
      (fun c hc => (plainFieldChar_spec (hchars c hc)).1) ?_ n
    exact prefix_fail_of_bounded _ _ _ _ (by decide)
  have h3 : mBin " eq " (f ++ " eq \"null\"") = some (f, "\"null\"") := by
    apply mBin_split " eq " ' ' ("eq ".data) (by decide) _ f "\"null\""
    · rw [String.data_append,
        show (" eq \"null\"" : String).data = " eq ".data ++ ("\"null\"" : String).data from by
          decide,
        List.append_assoc]
    · exact hne
    · intro c hc
      have h := plainFieldChar_spec (hchars c hc)
      exact ⟨h.2.1, h.2.2.1⟩
    · decide
    · decide
    · decide
  unfold firstStrategy
  rw [h1, h2, h3]
  rfl

/-! ## Claims -/

/-- C2: the claim states that applying sorts never throws, with a
missing/malformed direction handled gracefully.  The code contradicts it:
for the `$orderby` entry `name` (no direction token) the destructured
`dir` is `undefined` and `dir.toUpperCase()` throws a `TypeError`, which
the embedding records as `SortsResult.crash`. -/
theorem c2_sorts_crash_on_missing_direction :
    applySorts (some "name") [] = SortsResult.crash := by decide

/-- C6: the response envelope satisfies `per_page = (limit > 0 ? limit :
total)`, `current_page = (limit > 0 ? floor(skip/limit)+1 : 1)`,
`last_page = (limit > 0 ? ceil(total/limit) : 1)` (computed as
`(total+limit-1)/limit` in natural division), `from = (total = 0 ? 0 :
skip+1)`, `to = (total = 0 ? 0 : skip + rows.length)`; in particular
`total=15, skip=10, limit=10, rows.length=5` yields
`per_page 10, current_page 2, last_page 2, from 11, to 15`. -/
theorem c6_envelope_arithmetic (skip limit total dataLength : ℕ) :
    buildEnvelope skip limit total dataLength =
      ⟨if 0 < limit then limit else total,
       if 0 < limit then skip / limit + 1 else 1,
       if 0 < limit then (total + limit - 1) / limit else 1,
       if total = 0 then 0 else skip + 1,
       if total = 0 then 0 else skip + dataLength⟩ ∧
    buildEnvelope 10 10 15 5 = ⟨10, 2, 2, 11, 15⟩ := by
  have hgen : ∀ sk li tot da : ℕ,
      buildEnvelope sk li tot da =
        ⟨if 0 < li then li else tot,
         if 0 < li then sk / li + 1 else 1,
         if 0 < li then (tot + li - 1) / li else 1,
         if tot = 0 then 0 else sk + 1,
         if tot = 0 then 0 else sk + da⟩ := by
    intro sk li tot da
    unfold buildEnvelope
    by_cases hl : 0 < li
    · simp only [if_pos hl]
      rw [nat_floor_cast_div, nat_ceil_cast_div _ _ hl]
    · simp only [if_neg hl]
  refine ⟨hgen skip limit total dataLength, ?_⟩
  rw [hgen 10 10 15 5]
  decide

/-- C7 counterexample: the claim says `$expand="profile, profile"` yields
exactly one expansion application for `profile`; the code performs no
de-duplication and records two `leftJoinAndSelect` applications. -/
theorem c7_counterexample :
    applyExpands (some "profile, profile") [] =
      [("entity.profile", "profile"), ("entity.profile", "profile")] ∧
    List.count ("entity.profile", "profile")
      (applyExpands (some "profile, profile") []) ≠ 1 := by
  exact ⟨by decide, by decide⟩

/-- C7 amended: each authorized occurrence of a relation name in
`$expand` produces one join-and-fetch application; duplicate occurrences
are not collapsed, so the number of applications for relation `r` equals
the number of entries trimming to `r` (when authorized). -/
theorem c7_amended (s : String) (al : List String) (r : String) (hs : s ≠ "") :
    List.count ("entity." ++ r, r) (applyExpands (some s) al) =
      List.countP (fun e => jsTrim e == r && !(decide (0 < al.length ∧ r ∉ al)))
        (jsSplit "," s) := by
  rw [show applyExpands (some s) al =
    (if s = "" then [] else applyExpandsGo al (jsSplit "," s)) from rfl, if_neg hs]
  exact applyExpandsGo_count al r (jsSplit "," s)

/-- C7 witness: with `$expand="profile, posts"` and no allow-list the
relation `profile` is applied exactly once. -/
theorem c7_witness :
    List.count ("entity.profile", "profile")
      (applyExpands (some "profile, posts") []) =
      List.countP
        (fun e => jsTrim e == "profile" && !(decide (0 < ([] : List String).length ∧ "profile" ∉ ([] : List String))))
        (jsSplit "," "profile, posts") :=
  c7_amended "profile, posts" [] "profile" (by decide)

/-- C8 counterexample: the claim says a negative or non-numeric
`$top`/`$skip` is treated as absent and never forwarded; the code
forwards `parseInt`'s raw result: `$top="-5"` forwards `take(-5)` and
`$top="abc"` forwards `take(NaN)`, neither absent nor `0`. -/
theorem c8_counterexample :
    (applyPagination (some "-5") none).1 = some (some (-5)) ∧
    (applyPagination (some "abc") none).1 = some none ∧
    (applyPagination (some "-5") none).1 ≠ none ∧
    (applyPagination (some "-5") none).1 ≠ some (some 0) := by
  exact ⟨by decide, by decide, by decide, by decide⟩

/-- C8 amended: for a truthy (non-empty) `$top`/`$skip` string the raw
`parseInt` result — including negative values and `NaN` — is forwarded to
the query capability unchanged; absent values produce no call; on decimal
digit strings `parseInt` returns the denoted integer, and a non-numeric
string is `NaN`. -/
theorem c8_amended :
    (∀ s : String, s ≠ "" →
      applyPagination (some s) none = (some (parseIntJS s), none) ∧
      applyPagination none (some s) = (none, some (parseIntJS s))) ∧
    applyPagination none none = (none, none) ∧
    (∀ n : ℕ, parseIntJS (natToDec n) = some (n : ℤ)) ∧
    (∀ n : ℕ, parseIntJS ("-" ++ natToDec n) = some (-(n : ℤ))) ∧
    parseIntJS "abc" = none := by
  refine ⟨?_, by decide, parseIntJS_natToDec, parseIntJS_neg_natToDec, by decide⟩
  intro s hs
  constructor <;> simp [applyPagination, if_neg hs]

/-- C8 witness: the negative bound `-5` is forwarded verbatim. -/
theorem c8_witness :
    applyPagination (some "-5") none = (some (parseIntJS "-5"), none) ∧
    parseIntJS (natToDec 7) = some (7 : ℤ) :=
  ⟨(c8_amended.1 "-5" (by decide)).1, c8_amended.2.2.1 7⟩

/-- C10: every accepted `$orderby` entry is applied with its field
unconditionally prefixed by the root alias `entity.`, even when the field
already contains a dot-qualified path: `profile.name asc` is forwarded as
`entity.profile.name`, so relation-qualified sort fields are never passed
through unchanged. -/
theorem c10_sorts_always_prefixed :
    (∀ (ob : String) (al : List String) (l : List (String × String)),
      applySorts (some ob) al = .calls l →
        ∀ p ∈ l, ∃ f, p.1 = "entity." ++ f) ∧
    applySorts (some "profile.name asc") [] = .calls [("entity.profile.name", "ASC")] := by
  refine ⟨?_, by decide⟩
  intro ob al l h p hp
  rw [show applySorts (some ob) al =
    if ob = "" then SortsResult.calls [] else applySortsGo al (jsSplit "," ob) from rfl] at h
  by_cases hob : ob = ""
  · rw [if_pos hob] at h
    injection h with h
    rw [← h] at hp
    cases hp
  · rw [if_neg hob] at h
    exact applySortsGo_entity al (jsSplit "," ob) l h p hp

/-- C10 witness: an accepted entry with field `a` is forwarded with the
`entity.` prefix. -/
theorem c10_witness : ∃ f, ("entity.a", "ASC").1 = "entity." ++ f :=
  c10_sorts_always_prefixed.1 "a asc" [] [("entity.a", "ASC")] (by decide)
    ("entity.a", "ASC") (by decide)

/-- C5: for every `$filter` expression the emitted placeholder names
`val<i>` are indexed by the clause's position in the overall split, so the
binding names collected across all emitted predicates are pairwise
distinct regardless of operator repetition. -/
theorem c5_placeholder_uniqueness (filter : Option String) (al : List String) :
    ((applyFilters filter al).flatMap (fun p => p.bindings.map Prod.fst)).Nodup := by
  cases filter with
  | none => simp [applyFilters]
  | some s =>
    rw [show applyFilters (some s) al =
      (if s = "" then [] else applyFiltersGo al 0 (jsSplit " and " s)) from rfl]
    by_cases hs : s = ""
    · rw [if_pos hs]
      simp
    · rw [if_neg hs]
      exact (applyFiltersGo_keys al (jsSplit " and " s) 0).1

theorem str_append_assoc (a b c : String) : a ++ b ++ c = a ++ (b ++ c) := by
  apply String.ext
  simp [String.data_append]

theorem append_glue (field a b ab nd : String) (hab : a ++ b = ab) :
    field ++ a ++ (b ++ nd) = field ++ (ab ++ nd) := by
  rw [str_append_assoc field a (b ++ nd), ← str_append_assoc a b nd, hab]

theorem tail_no_dot (pre : String) (hpre : strContainsChar pre '.' = false) (i : ℕ) :
    strContainsChar (pre ++ natToDec i) '.' = false := by
  rw [strContainsChar_append, hpre, natToDec_no_dot]
  rfl

theorem qualify_split (field tail : String) (htail : strContainsChar tail '.' = false) :
    (strContainsChar field '.' = false →
      qualifyCondition (field ++ tail) = "entity." ++ (field ++ tail)) ∧
    (strContainsChar field '.' = true →
      qualifyCondition (field ++ tail) = field ++ tail) := by
  constructor
  · intro hf
    apply qualifyCondition_no_dot
    rw [strContainsChar_append, hf, htail]
    rfl
  · intro hf
    apply qualifyCondition_dot
    rw [strContainsChar_append, hf]
    rfl

theorem parseAndApplyFilter_parse {s : String} {i : ℕ} {al : List String}
    {p : PredicateDescriptor} (h : parseAndApplyFilter s i al = some p) :
    ∃ (op : FilterOp) (f : String) (v : Option String),
      firstStrategy s = some (op, f, v) ∧
      p = handleOp op (jsTrim f) (Option.map jsTrim v) i := by
  unfold parseAndApplyFilter at h
  cases hfs : firstStrategy s with
  | none => rw [hfs] at h; cases h
  | some t =>
    obtain ⟨op, f, v⟩ := t
    rw [hfs] at h
    simp only at h
    split at h
    · cases h
    · injection h with h
      exact ⟨op, f, v, rfl, h.symm⟩

/-- C1: for every emitted predicate the matching strategy and its two
capture groups are pinned by `firstStrategy` applied to the clause; the
whole predicate equals the `addWhere` call whose condition template is
built only from the trimmed captured field and the placeholder
`:val<index>` — the captured raw value does not occur in the template —
while the coerced value appears only in the bindings map under the key
`val<index>`, wrapped in `%` wildcards before/after/both for
endswith/startswith/contains; the two null strategies emit no bindings at
all. -/
theorem c1_injection_safety (clause : String) (i : ℕ) (al : List String)
    (p : PredicateDescriptor) (h : parseAndApplyFilter clause i al = some p) :
    ∃ (op : FilterOp) (rawField : String) (rawValue : Option String),
      firstStrategy clause = some (op, rawField, rawValue) ∧
      ((op = FilterOp.eqNull ∧
          p = addWhere (jsTrim rawField ++ " IS NULL") []) ∨
       (op = FilterOp.neNull ∧
          p = addWhere (jsTrim rawField ++ " IS NOT NULL") []) ∨
       (op = FilterOp.eqOp ∧
          p = addWhere (jsTrim rawField ++ " = " ++ (":val" ++ natToDec i))
            [("val" ++ natToDec i,
              parseValue ((Option.map jsTrim rawValue).getD ""))]) ∨
       (op = FilterOp.neOp ∧
          p = addWhere (jsTrim rawField ++ " != " ++ (":val" ++ natToDec i))
            [("val" ++ natToDec i,
              parseValue ((Option.map jsTrim rawValue).getD ""))]) ∨
       (op = FilterOp.gtOp ∧
          p = addWhere (jsTrim rawField ++ " > " ++ (":val" ++ natToDec i))
            [("val" ++ natToDec i,
              parseValue ((Option.map jsTrim rawValue).getD ""))]) ∨
       (op = FilterOp.geOp ∧
          p = addWhere (jsTrim rawField ++ " >= " ++ (":val" ++ natToDec i))
            [("val" ++ natToDec i,
              parseValue ((Option.map jsTrim rawValue).getD ""))]) ∨
       (op = FilterOp.ltOp ∧
          p = addWhere (jsTrim rawField ++ " < " ++ (":val" ++ natToDec i))
            [("val" ++ natToDec i,
              parseValue ((Option.map jsTrim rawValue).getD ""))]) ∨
       (op = FilterOp.leOp ∧
          p = addWhere (jsTrim rawField ++ " <= " ++ (":val" ++ natToDec i))
            [("val" ++ natToDec i,
              parseValue ((Option.map jsTrim rawValue).getD ""))]) ∨
       (op = FilterOp.containsOp ∧
          p = addWhere (jsTrim rawField ++ " LIKE " ++ (":val" ++ natToDec i))
            [("val" ++ natToDec i,
              TypedValue.str ("%" ++
                jsDisplay (parseValue ((Option.map jsTrim rawValue).getD "")) ++ "%"))]) ∨
       (op = FilterOp.startsWithOp ∧
          p = addWhere (jsTrim rawField ++ " LIKE " ++ (":val" ++ natToDec i))
            [("val" ++ natToDec i,
              TypedValue.str
                (jsDisplay (parseValue ((Option.map jsTrim rawValue).getD "")) ++ "%"))]) ∨
       (op = FilterOp.endsWithOp ∧
          p = addWhere (jsTrim rawField ++ " LIKE " ++ (":val" ++ natToDec i))
            [("val" ++ natToDec i,
              TypedValue.str ("%" ++
                jsDisplay (parseValue ((Option.map jsTrim rawValue).getD ""))))])) := by
  obtain ⟨op, f, v, hfs, hp⟩ := parseAndApplyFilter_parse h
  subst hp
  cases op with
  | eqNull => exact ⟨_, f, v, hfs, Or.inl ⟨rfl, rfl⟩⟩
  | neNull => exact ⟨_, f, v, hfs, Or.inr (Or.inl ⟨rfl, rfl⟩)⟩
  | eqOp => exact ⟨_, f, v, hfs, Or.inr (Or.inr (Or.inl ⟨rfl, rfl⟩))⟩
  | neOp => exact ⟨_, f, v, hfs, Or.inr (Or.inr (Or.inr (Or.inl ⟨rfl, rfl⟩)))⟩
  | gtOp => exact ⟨_, f, v, hfs, Or.inr (Or.inr (Or.inr (Or.inr (Or.inl ⟨rfl, rfl⟩))))⟩
  | geOp =>
    exact ⟨_, f, v, hfs, Or.inr (Or.inr (Or.inr (Or.inr (Or.inr (Or.inl ⟨rfl, rfl⟩)))))⟩
  | ltOp =>
    exact ⟨_, f, v, hfs,
      Or.inr (Or.inr (Or.inr (Or.inr (Or.inr (Or.inr (Or.inl ⟨rfl, rfl⟩))))))⟩
  | leOp =>
    exact ⟨_, f, v, hfs,
      Or.inr (Or.inr (Or.inr (Or.inr (Or.inr (Or.inr (Or.inr (Or.inl ⟨rfl, rfl⟩)))))))⟩
  | containsOp =>
    exact ⟨_, f, v, hfs,
      Or.inr (Or.inr (Or.inr (Or.inr (Or.inr (Or.inr (Or.inr (Or.inr
        (Or.inl ⟨rfl, rfl⟩))))))))⟩
  | startsWithOp =>
    exact ⟨_, f, v, hfs,
      Or.inr (Or.inr (Or.inr (Or.inr (Or.inr (Or.inr (Or.inr (Or.inr (Or.inr
        (Or.inl ⟨rfl, rfl⟩)))))))))⟩
  | endsWithOp =>
    exact ⟨_, f, v, hfs,
      Or.inr (Or.inr (Or.inr (Or.inr (Or.inr (Or.inr (Or.inr (Or.inr (Or.inr
        (Or.inr ⟨rfl, rfl⟩)))))))))⟩

/-- C1 witness: for the clause `name eq 'John'` at index 0 the pinned
strategy is generic equality on field `name`, emitting the predicate
`entity.name = :val0` with the single binding `val0`. -/
theorem c1_witness :
    ∃ (op : FilterOp) (rawField : String) (rawValue : Option String),
      firstStrategy "name eq 'John'" = some (op, rawField, rawValue) ∧
      ((op = FilterOp.eqNull ∧
          (⟨"entity.name = :val0", [("val0", TypedValue.str "John")]⟩ :
            PredicateDescriptor) = addWhere (jsTrim rawField ++ " IS NULL") []) ∨
       (op = FilterOp.neNull ∧
          (⟨"entity.name = :val0", [("val0", TypedValue.str "John")]⟩ :
            PredicateDescriptor) = addWhere (jsTrim rawField ++ " IS NOT NULL") []) ∨
       (op = FilterOp.eqOp ∧
          (⟨"entity.name = :val0", [("val0", TypedValue.str "John")]⟩ :
            PredicateDescriptor) =
            addWhere (jsTrim rawField ++ " = " ++ (":val" ++ natToDec 0))
              [("val" ++ natToDec 0,
                parseValue ((Option.map jsTrim rawValue).getD ""))]) ∨
       (op = FilterOp.neOp ∧
          (⟨"entity.name = :val0", [("val0", TypedValue.str "John")]⟩ :
            PredicateDescriptor) =
            addWhere (jsTrim rawField ++ " != " ++ (":val" ++ natToDec 0))
              [("val" ++ natToDec 0,
                parseValue ((Option.map jsTrim rawValue).getD ""))]) ∨
       (op = FilterOp.gtOp ∧
          (⟨"entity.name = :val0", [("val0", TypedValue.str "John")]⟩ :
            PredicateDescriptor) =
            addWhere (jsTrim rawField ++ " > " ++ (":val" ++ natToDec 0))
              [("val" ++ natToDec 0,
                parseValue ((Option.map jsTrim rawValue).getD ""))]) ∨
       (op = FilterOp.geOp ∧
          (⟨"entity.name = :val0", [("val0", TypedValue.str "John")]⟩ :
            PredicateDescriptor) =
            addWhere (jsTrim rawField ++ " >= " ++ (":val" ++ natToDec 0))
              [("val" ++ natToDec 0,
                parseValue ((Option.map jsTrim rawValue).getD ""))]) ∨
       (op = FilterOp.ltOp ∧
          (⟨"entity.name = :val0", [("val0", TypedValue.str "John")]⟩ :
            PredicateDescriptor) =
            addWhere (jsTrim rawField ++ " < " ++ (":val" ++ natToDec 0))
              [("val" ++ natToDec 0,
                parseValue ((Option.map jsTrim rawValue).getD ""))]) ∨
       (op = FilterOp.leOp ∧
          (⟨"entity.name = :val0", [("val0", TypedValue.str "John")]⟩ :
            PredicateDescriptor) =
            addWhere (jsTrim rawField ++ " <= " ++ (":val" ++ natToDec 0))
              [("val" ++ natToDec 0,
                parseValue ((Option.map jsTrim rawValue).getD ""))]) ∨
       (op = FilterOp.containsOp ∧
          (⟨"entity.name = :val0", [("val0", TypedValue.str "John")]⟩ :
            PredicateDescriptor) =
            addWhere (jsTrim rawField ++ " LIKE " ++ (":val" ++ natToDec 0))
              [("val" ++ natToDec 0,
                TypedValue.str ("%" ++
                  jsDisplay (parseValue ((Option.map jsTrim rawValue).getD "")) ++ "%"))]) ∨
       (op = FilterOp.startsWithOp ∧
          (⟨"entity.name = :val0", [("val0", TypedValue.str "John")]⟩ :
            PredicateDescriptor) =
            addWhere (jsTrim rawField ++ " LIKE " ++ (":val" ++ natToDec 0))
              [("val" ++ natToDec 0,
                TypedValue.str
                  (jsDisplay (parseValue ((Option.map jsTrim rawValue).getD "")) ++ "%"))]) ∨
       (op = FilterOp.endsWithOp ∧
          (⟨"entity.name = :val0", [("val0", TypedValue.str "John")]⟩ :
            PredicateDescriptor) =
            addWhere (jsTrim rawField ++ " LIKE " ++ (":val" ++ natToDec 0))
              [("val" ++ natToDec 0,
                TypedValue.str ("%" ++
                  jsDisplay (parseValue ((Option.map jsTrim rawValue).getD ""))))])) :=
  c1_injection_safety "name eq 'John'" 0 []
    ⟨"entity.name = :val0", [("val0", TypedValue.str "John")]⟩ (by decide)

/-- C9: every emitted predicate's condition is the clause's own parsed
field — capture group 1 of the matching strategy, trimmed, pinned by
`firstStrategy` — followed by one of the nine operator tails; when that
field contains no dot the condition is prefixed with the root alias
`entity.`, and when it already contains a path separator the condition is
exactly the field followed by the tail, passed through unprefixed — for
all operator kinds including the null checks. -/
theorem c9_field_qualification (clause : String) (i : ℕ) (al : List String)
    (p : PredicateDescriptor) (h : parseAndApplyFilter clause i al = some p) :
    ∃ (op : FilterOp) (rawField : String) (rawValue : Option String) (tail : String),
      firstStrategy clause = some (op, rawField, rawValue) ∧
      (tail = " IS NULL" ∨ tail = " IS NOT NULL" ∨
        tail = " = :val" ++ natToDec i ∨ tail = " != :val" ++ natToDec i ∨
        tail = " > :val" ++ natToDec i ∨ tail = " >= :val" ++ natToDec i ∨
        tail = " < :val" ++ natToDec i ∨ tail = " <= :val" ++ natToDec i ∨
        tail = " LIKE :val" ++ natToDec i) ∧
      (strContainsChar (jsTrim rawField) '.' = false →
        p.condition = "entity." ++ (jsTrim rawField ++ tail)) ∧
      (strContainsChar (jsTrim rawField) '.' = true →
        p.condition = jsTrim rawField ++ tail) := by
  obtain ⟨op, f, v, hfs, hp⟩ := parseAndApplyFilter_parse h
  subst hp
  cases op with
  | eqNull =>
    refine ⟨_, f, v, " IS NULL", hfs, Or.inl rfl, ?_, ?_⟩
    · intro hf
      exact (qualify_split (jsTrim f) " IS NULL" (by decide)).1 hf
    · intro hf
      exact (qualify_split (jsTrim f) " IS NULL" (by decide)).2 hf
  | neNull =>
    refine ⟨_, f, v, " IS NOT NULL", hfs, Or.inr (Or.inl rfl), ?_, ?_⟩
    · intro hf
      exact (qualify_split (jsTrim f) " IS NOT NULL" (by decide)).1 hf
    · intro hf
      exact (qualify_split (jsTrim f) " IS NOT NULL" (by decide)).2 hf
  | eqOp =>
    have hglue : jsTrim f ++ " = " ++ (":val" ++ natToDec i) =
        jsTrim f ++ (" = :val" ++ natToDec i) :=
      append_glue (jsTrim f) " = " ":val" " = :val" (natToDec i) (by decide)
    have htail := tail_no_dot " = :val" (by decide) i
    refine ⟨_, f, v, " = :val" ++ natToDec i, hfs, Or.inr (Or.inr (Or.inl rfl)), ?_, ?_⟩
    · intro hf
      show qualifyCondition (jsTrim f ++ " = " ++ (":val" ++ natToDec i)) = _
      rw [hglue]
      exact (qualify_split _ _ htail).1 hf
    · intro hf
      show qualifyCondition (jsTrim f ++ " = " ++ (":val" ++ natToDec i)) = _
      rw [hglue]
      exact (qualify_split _ _ htail).2 hf
  | neOp =>
    have hglue : jsTrim f ++ " != " ++ (":val" ++ natToDec i) =
        jsTrim f ++ (" != :val" ++ natToDec i) :=
      append_glue (jsTrim f) " != " ":val" " != :val" (natToDec i) (by decide)
    have htail := tail_no_dot " != :val" (by decide) i
    refine ⟨_, f, v, " != :val" ++ natToDec i, hfs,
      Or.inr (Or.inr (Or.inr (Or.inl rfl))), ?_, ?_⟩
    · intro hf
      show qualifyCondition (jsTrim f ++ " != " ++ (":val" ++ natToDec i)) = _
      rw [hglue]
      exact (qualify_split _ _ htail).1 hf
    · intro hf
      show qualifyCondition (jsTrim f ++ " != " ++ (":val" ++ natToDec i)) = _
      rw [hglue]
      exact (qualify_split _ _ htail).2 hf
  | gtOp =>
    have hglue : jsTrim f ++ " > " ++ (":val" ++ natToDec i) =
        jsTrim f ++ (" > :val" ++ natToDec i) :=
      append_glue (jsTrim f) " > " ":val" " > :val" (natToDec i) (by decide)
    have htail := tail_no_dot " > :val" (by decide) i
    refine ⟨_, f, v, " > :val" ++ natToDec i, hfs,
      Or.inr (Or.inr (Or.inr (Or.inr (Or.inl rfl)))), ?_, ?_⟩
    · intro hf
      show qualifyCondition (jsTrim f ++ " > " ++ (":val" ++ natToDec i)) = _
      rw [hglue]
      exact (qualify_split _ _ htail).1 hf
    · intro hf
      show qualifyCondition (jsTrim f ++ " > " ++ (":val" ++ natToDec i)) = _
      rw [hglue]
      exact (qualify_split _ _ htail).2 hf
  | geOp =>
    have hglue : jsTrim f ++ " >= " ++ (":val" ++ natToDec i) =
        jsTrim f ++ (" >= :val" ++ natToDec i) :=
      append_glue (jsTrim f) " >= " ":val" " >= :val" (natToDec i) (by decide)
    have htail := tail_no_dot " >= :val" (by decide) i
    refine ⟨_, f, v, " >= :val" ++ natToDec i, hfs,
      Or.inr (Or.inr (Or.inr (Or.inr (Or.inr (Or.inl rfl))))), ?_, ?_⟩
    · intro hf
      show qualifyCondition (jsTrim f ++ " >= " ++ (":val" ++ natToDec i)) = _
      rw [hglue]
      exact (qualify_split _ _ htail).1 hf
    · intro hf
      show qualifyCondition (jsTrim f ++ " >= " ++ (":val" ++ natToDec i)) = _
      rw [hglue]
      exact (qualify_split _ _ htail).2 hf
  | ltOp =>
    have hglue : jsTrim f ++ " < " ++ (":val" ++ natToDec i) =
        jsTrim f ++ (" < :val" ++ natToDec i) :=
      append_glue (jsTrim f) " < " ":val" " < :val" (natToDec i) (by decide)
    have htail := tail_no_dot " < :val" (by decide) i
    refine ⟨_, f, v, " < :val" ++ natToDec i, hfs,
      Or.inr (Or.inr (Or.inr (Or.inr (Or.inr (Or.inr (Or.inl rfl)))))), ?_, ?_⟩
    · intro hf
      show qualifyCondition (jsTrim f ++ " < " ++ (":val" ++ natToDec i)) = _
      rw [hglue]
      exact (qualify_split _ _ htail).1 hf
    · intro hf
      show qualifyCondition (jsTrim f ++ " < " ++ (":val" ++ natToDec i)) = _
      rw [hglue]
      exact (qualify_split _ _ htail).2 hf
  | leOp =>
    have hglue : jsTrim f ++ " <= " ++ (":val" ++ natToDec i) =
        jsTrim f ++ (" <= :val" ++ natToDec i) :=
      append_glue (jsTrim f) " <= " ":val" " <= :val" (natToDec i) (by decide)
    have htail := tail_no_dot " <= :val" (by decide) i
    refine ⟨_, f, v, " <= :val" ++ natToDec i, hfs,
      Or.inr (Or.inr (Or.inr (Or.inr (Or.inr (Or.inr (Or.inr (Or.inl rfl))))))), ?_, ?_⟩
    · intro hf
      show qualifyCondition (jsTrim f ++ " <= " ++ (":val" ++ natToDec i)) = _
      rw [hglue]
      exact (qualify_split _ _ htail).1 hf
    · intro hf
      show qualifyCondition (jsTrim f ++ " <= " ++ (":val" ++ natToDec i)) = _
      rw [hglue]
      exact (qualify_split _ _ htail).2 hf
  | containsOp =>
    have hglue : jsTrim f ++ " LIKE " ++ (":val" ++ natToDec i) =
        jsTrim f ++ (" LIKE :val" ++ natToDec i) :=
      append_glue (jsTrim f) " LIKE " ":val" " LIKE :val" (natToDec i) (by decide)
    have htail := tail_no_dot " LIKE :val" (by decide) i
    refine ⟨_, f, v, " LIKE :val" ++ natToDec i, hfs,
      Or.inr (Or.inr (Or.inr (Or.inr (Or.inr (Or.inr (Or.inr (Or.inr rfl))))))), ?_, ?_⟩
    · intro hf
      show qualifyCondition (jsTrim f ++ " LIKE " ++ (":val" ++ natToDec i)) = _
      rw [hglue]
      exact (qualify_split _ _ htail).1 hf
    · intro hf
      show qualifyCondition (jsTrim f ++ " LIKE " ++ (":val" ++ natToDec i)) = _
      rw [hglue]
      exact (qualify_split _ _ htail).2 hf
  | startsWithOp =>
    have hglue : jsTrim f ++ " LIKE " ++ (":val" ++ natToDec i) =
        jsTrim f ++ (" LIKE :val" ++ natToDec i) :=
      append_glue (jsTrim f) " LIKE " ":val" " LIKE :val" (natToDec i) (by decide)
    have htail := tail_no_dot " LIKE :val" (by decide) i
    refine ⟨_, f, v, " LIKE :val" ++ natToDec i, hfs,
      Or.inr (Or.inr (Or.inr (Or.inr (Or.inr (Or.inr (Or.inr (Or.inr rfl))))))), ?_, ?_⟩
    · intro hf
      show qualifyCondition (jsTrim f ++ " LIKE " ++ (":val" ++ natToDec i)) = _
      rw [hglue]
      exact (qualify_split _ _ htail).1 hf
    · intro hf
      show qualifyCondition (jsTrim f ++ " LIKE " ++ (":val" ++ natToDec i)) = _
      rw [hglue]
      exact (qualify_split _ _ htail).2 hf
  | endsWithOp =>
    have hglue : jsTrim f ++ " LIKE " ++ (":val" ++ natToDec i) =
        jsTrim f ++ (" LIKE :val" ++ natToDec i) :=
      append_glue (jsTrim f) " LIKE " ":val" " LIKE :val" (natToDec i) (by decide)
    have htail := tail_no_dot " LIKE :val" (by decide) i
    refine ⟨_, f, v, " LIKE :val" ++ natToDec i, hfs,
      Or.inr (Or.inr (Or.inr (Or.inr (Or.inr (Or.inr (Or.inr (Or.inr rfl))))))), ?_, ?_⟩
    · intro hf
      show qualifyCondition (jsTrim f ++ " LIKE " ++ (":val" ++ natToDec i)) = _
      rw [hglue]
      exact (qualify_split _ _ htail).1 hf
    · intro hf
      show qualifyCondition (jsTrim f ++ " LIKE " ++ (":val" ++ natToDec i)) = _
      rw [hglue]
      exact (qualify_split _ _ htail).2 hf

/-- C9 witness: the dot-free clause `name eq 5` yields the qualified
condition `entity.name = :val0`, and the already-qualified clause
`profile.name eq 5` — whose pinned parsed field `profile.name` contains a
dot — yields the condition `profile.name = :val0` passed through without
the alias prefix. -/
theorem c9_witness :
    (∃ (op : FilterOp) (rawField : String) (rawValue : Option String) (tail : String),
      firstStrategy "name eq 5" = some (op, rawField, rawValue) ∧
      (tail = " IS NULL" ∨ tail = " IS NOT NULL" ∨
        tail = " = :val" ++ natToDec 0 ∨ tail = " != :val" ++ natToDec 0 ∨
        tail = " > :val" ++ natToDec 0 ∨ tail = " >= :val" ++ natToDec 0 ∨
        tail = " < :val" ++ natToDec 0 ∨ tail = " <= :val" ++ natToDec 0 ∨
        tail = " LIKE :val" ++ natToDec 0) ∧
      (strContainsChar (jsTrim rawField) '.' = false →
        (⟨"entity.name = :val0", [("val0", TypedValue.num (JsNum.fin 5 1))]⟩ :
          PredicateDescriptor).condition = "entity." ++ (jsTrim rawField ++ tail)) ∧
      (strContainsChar (jsTrim rawField) '.' = true →
        (⟨"entity.name = :val0", [("val0", TypedValue.num (JsNum.fin 5 1))]⟩ :
          PredicateDescriptor).condition = jsTrim rawField ++ tail)) ∧
    (∃ (op : FilterOp) (rawField : String) (rawValue : Option String) (tail : String),
      firstStrategy "profile.name eq 5" = some (op, rawField, rawValue) ∧
      (tail = " IS NULL" ∨ tail = " IS NOT NULL" ∨
        tail = " = :val" ++ natToDec 0 ∨ tail = " != :val" ++ natToDec 0 ∨
        tail = " > :val" ++ natToDec 0 ∨ tail = " >= :val" ++ natToDec 0 ∨
        tail = " < :val" ++ natToDec 0 ∨ tail = " <= :val" ++ natToDec 0 ∨
        tail = " LIKE :val" ++ natToDec 0) ∧
      (strContainsChar (jsTrim rawField) '.' = false →
        (⟨"profile.name = :val0", [("val0", TypedValue.num (JsNum.fin 5 1))]⟩ :
          PredicateDescriptor).condition = "entity." ++ (jsTrim rawField ++ tail)) ∧
      (strContainsChar (jsTrim rawField) '.' = true →
        (⟨"profile.name = :val0", [("val0", TypedValue.num (JsNum.fin 5 1))]⟩ :
          PredicateDescriptor).condition = jsTrim rawField ++ tail)) :=
  ⟨c9_field_qualification "name eq 5" 0 []
      ⟨"entity.name = :val0", [("val0", TypedValue.num (JsNum.fin 5 1))]⟩ (by decide),
   c9_field_qualification "profile.name eq 5" 0 []
      ⟨"profile.name = :val0", [("val0", TypedValue.num (JsNum.fin 5 1))]⟩ (by decide)⟩

/-- C3 counterexample: the claim says `name eq "null"` (double quotes)
translates to an IsNull predicate with no bindings; the code's null
pattern only matches single quotes, so the clause falls through to the
generic equality strategy and binds the string `null`. -/
theorem c3_counterexample :
    parseAndApplyFilter "name eq \"null\"" 0 [] =
      some ⟨"entity.name = :val0", [("val0", TypedValue.str "null")]⟩ ∧
    (parseAndApplyFilter "name eq \"null\"" 0 []).map PredicateDescriptor.bindings ≠
      some [] := by
  exact ⟨by decide, by decide⟩

/-- C3 amended: for a non-empty field of plain characters, `f eq 'null'`
(single quotes) yields the binding-free `IS NULL` predicate and
`f ne 'null'` the `IS NOT NULL` predicate, but the double-quoted
`f eq "null"` yields an equality predicate binding the string `null`. -/
theorem c3_amended (f : String) (i : ℕ) (hne : f.data ≠ [])
    (hchars : ∀ c ∈ f.data, plainFieldChar c = true) :
    parseAndApplyFilter (f ++ " eq 'null'") i [] =
      some (addWhere (f ++ " IS NULL") []) ∧
    parseAndApplyFilter (f ++ " ne 'null'") i [] =
      some (addWhere (f ++ " IS NOT NULL") []) ∧
    parseAndApplyFilter (f ++ " eq \"null\"") i [] =
      some (addWhere (f ++ " = " ++ (":val" ++ natToDec i))
        [("val" ++ natToDec i, TypedValue.str "null")]) := by
  have htrim : jsTrim f = f :=
    jsTrim_eq_self (fun c hc => (plainFieldChar_spec (hchars c hc)).2.2.2)
  refine ⟨?_, ?_, ?_⟩
  · unfold parseAndApplyFilter
    rw [firstStrategy_eq_null f hne hchars]
    simp only [htrim]
    rw [if_neg (by simp)]
    rfl
  · unfold parseAndApplyFilter
    rw [firstStrategy_ne_null f hne hchars]
    simp only [htrim]
    rw [if_neg (by simp)]
    rfl
  · unfold parseAndApplyFilter
    rw [firstStrategy_eq_dquote_null f hne hchars]
    simp only [htrim]
    rw [if_neg (by simp)]
    show some (handleOp FilterOp.eqOp f (some (jsTrim "\"null\"")) i) = _
    rw [show jsTrim "\"null\"" = "\"null\"" from by decide]
    show some (addWhere (f ++ " = " ++ (":val" ++ natToDec i))
      [("val" ++ natToDec i, parseValue "\"null\"")]) = _
    rw [show parseValue "\"null\"" = TypedValue.str "null" from by decide]

/-- C3 witness: the amended behaviour at the concrete field `name` and
index 0. -/
theorem c3_witness :
    parseAndApplyFilter ("name" ++ " eq 'null'") 0 [] =
      some (addWhere ("name" ++ " IS NULL") []) ∧
    parseAndApplyFilter ("name" ++ " ne 'null'") 0 [] =
      some (addWhere ("name" ++ " IS NOT NULL") []) ∧
    parseAndApplyFilter ("name" ++ " eq \"null\"") 0 [] =
      some (addWhere ("name" ++ " = " ++ (":val" ++ natToDec 0))
        [("val" ++ natToDec 0, TypedValue.str "null")]) :=
  c3_amended "name" 0 (by decide) (by decide)

/-- C4 counterexample: the claim says every string that is not quoted, not
a boolean/null word and not an integer/decimal literal coerces to itself
as a verbatim string; but `Number("")` is `0` in JavaScript, so the code
coerces the empty string to the number `0` while the spec's ordered rules
produce the empty string. -/
theorem c4_counterexample :
    parseValue "" = TypedValue.num (JsNum.fin 0 1) ∧
    specCoerce "" = TypedValue.str "" ∧
    parseValue "" ≠ specCoerce "" := by
  exact ⟨by decide, by decide, by decide⟩

/-- C4 amended: coercion is total and follows the code's ordered rules: a
string whose first and last character are the same quote (including the
degenerate single-character case) is stripped one level; exactly
`true`/`false`/`null` map to boolean/null; otherwise any string accepted
by JavaScript `Number` — which besides integer and decimal literals
includes the empty string (0), hex/octal/binary literals, `Infinity` and
exponent notation — becomes that number, and every remaining string is
kept verbatim.  The spec's round trips hold. -/
theorem c4_value_coercion_amended :
    (∀ (v : String) (c : Char), (c = '"' ∨ c = '\'') →
        headIs v c = true → lastIs v c = true →
        parseValue v = TypedValue.str (jsSlice1m1 v)) ∧
    parseValue "true" = TypedValue.bool true ∧
    parseValue "'John'" = TypedValue.str "John" ∧
    parseValue "42" = TypedValue.num (JsNum.fin 42 1) ∧
    parseValue "null" = TypedValue.null ∧
    parseValue "" = TypedValue.num (JsNum.fin 0 1) ∧
    (∀ v : String,
      (headIs v '"' && lastIs v '"') = false →
      (headIs v '\'' && lastIs v '\'') = false →
      v ≠ "true" → v ≠ "false" → v ≠ "null" →
      parseValue v =
        match jsNumber v with
        | some n => TypedValue.num n
        | none => TypedValue.str v) := by
  refine ⟨?_, by decide, by decide, by decide, by decide, by decide, ?_⟩
  · intro v c hc hh hl
    rcases hc with hc | hc
    · subst hc
      simp [parseValue, hh, hl]
    · subst hc
      have hh2 : headIs v '"' = false := by
        unfold headIs at hh ⊢
        rw [eq_of_beq hh]
        rfl
      simp [parseValue, hh, hl, hh2]
  · intro v h1 h2 h3 h4 h5
    unfold parseValue
    rw [h1, h2]
    simp only [Bool.false_eq_true, if_false]
    rw [if_neg h3, if_neg h4, if_neg h5]

/-- C4 witness: the quote rule at `'x'` and the fall-through rule at the
plain string `zz`. -/
theorem c4_witness :
    parseValue "'x'" = TypedValue.str (jsSlice1m1 "'x'") ∧
    (parseValue "zz" =
      match jsNumber "zz" with
      | some n => TypedValue.num n
      | none => TypedValue.str "zz") :=
  ⟨c4_value_coercion_amended.1 "'x'" '\'' (Or.inr rfl) (by decide) (by decide),
   c4_value_coercion_amended.2.2.2.2.2.2 "zz" (by decide) (by decide) (by decide)
     (by decide) (by decide)⟩
